import Mathlib

/-!
Verification of the habit scheduling and streak engine
(src/app/database/habitDb.ts) against its specification.

Embedding conventions:
* Date keys are valid zero-padded YYYY-MM-DD strings in the source; on
  those, SQL text comparison, JS Date comparison and calendar-day
  arithmetic all agree with the order of day numbers, so a date key is
  modelled as an Int day number.
* The user_habits table has an AUTOINCREMENT integer primary key, so the
  rows ordered by id are exactly the rows in insertion order; the table
  is modelled as a list in insertion order, SELECT ... ORDER BY id is the
  filtered list, INSERT appends at the end, DELETE filters out.
* The completed column is written only as 0 or 1 by the code, so it is
  modelled as Bool.
* The habits table is likewise a list in storage order.
-/

namespace HabitDb

/-- One row of the user_habits table: (habit_id, date, completed), with the
  UNIQUE(habit_id, date) constraint enforced by the write paths. -/
structure UserHabitRow where
  habit_id : String
  date : Int
  completed : Bool
deriving DecidableEq, Repr

/-- One row of the habits table (the habit catalog). -/
structure HabitRow where
  id : String
  name : String
  description : Option String
  icon : Option String
  category_id : Option Int
  category_name : Option String
deriving DecidableEq, Repr

/-- The persistent store: the habits catalog table and the user_habits
  day-entry table, each as a list of rows in insertion order. -/
structure Db where
  habits : List HabitRow
  user_habits : List UserHabitRow
deriving DecidableEq, Repr

/-- The HabitSelection record returned and accepted by the store API. -/
structure HabitSelection where
  categories : List Int
  tasks : List String
  completed : List String
deriving DecidableEq, Repr

/-- Worker for first-occurrence deduplication: keep each element not yet in
  the seen set. -/
def uniqueFirstAux {α : Type} [DecidableEq α] (seen : List α) : List α → List α
  | [] => []
  | x :: xs =>
      if x ∈ seen then uniqueFirstAux seen xs
      else x :: uniqueFirstAux (x :: seen) xs

/-- First-occurrence deduplication, the semantics of the JS idiom
  Array.from(new Set(l)). -/
def uniqueFirst {α : Type} [DecidableEq α] (l : List α) : List α :=
  uniqueFirstAux [] l

theorem mem_uniqueFirstAux {α : Type} [DecidableEq α] :
    ∀ (l seen : List α) (a : α),
      a ∈ uniqueFirstAux seen l ↔ a ∈ l ∧ a ∉ seen := by
  intro l
  induction l with
  | nil => intro seen a; simp [uniqueFirstAux]
  | cons x xs ih =>
      intro seen a
      simp only [uniqueFirstAux]
      by_cases hx : x ∈ seen
      · rw [if_pos hx, ih]
        constructor
        · rintro ⟨h1, h2⟩
          exact ⟨List.mem_cons_of_mem x h1, h2⟩
        · rintro ⟨h1, h2⟩
          rcases List.mem_cons.mp h1 with rfl | h1
          · exact absurd hx h2
          · exact ⟨h1, h2⟩
      · rw [if_neg hx]
        simp only [List.mem_cons, ih, List.mem_cons]
        constructor
        · rintro (rfl | ⟨h1, h2⟩)
          · exact ⟨Or.inl rfl, hx⟩
          · exact ⟨Or.inr h1, fun hs => h2 (Or.inr hs)⟩
        · rintro ⟨rfl | h1, h2⟩
          · exact Or.inl rfl
          · by_cases hax : a = x
            · exact Or.inl hax
            · exact Or.inr ⟨h1, by rintro (h | h) <;> [exact hax h; exact h2 h]⟩

theorem nodup_uniqueFirstAux {α : Type} [DecidableEq α] :
    ∀ (l seen : List α), (uniqueFirstAux seen l).Nodup := by
  intro l
  induction l with
  | nil => intro seen; simp [uniqueFirstAux]
  | cons x xs ih =>
      intro seen
      simp only [uniqueFirstAux]
      by_cases hx : x ∈ seen
      · rw [if_pos hx]; exact ih seen
      · rw [if_neg hx]
        refine List.nodup_cons.mpr ⟨fun hmem => ?_, ih _⟩
        have := (mem_uniqueFirstAux xs (x :: seen) x).mp hmem
        exact this.2 (List.mem_cons_self x seen)

theorem mem_uniqueFirst {α : Type} [DecidableEq α] (l : List α) (a : α) :
    a ∈ uniqueFirst l ↔ a ∈ l := by
  unfold uniqueFirst
  rw [mem_uniqueFirstAux]
  simp

theorem nodup_uniqueFirst {α : Type} [DecidableEq α] (l : List α) :
    (uniqueFirst l).Nodup :=
  nodup_uniqueFirstAux l []

/-- DELETE FROM user_habits WHERE date = d. -/
def deleteDate (d : Int) (db : Db) : Db :=
  { db with user_habits := db.user_habits.filter (fun r => r.date ≠ d) }

/-- INSERT OR REPLACE INTO user_habits (habit_id, date, completed): any row
  conflicting on the UNIQUE(habit_id, date) pair is removed, the new row is
  appended with a fresh autoincrement id. -/
def insertOrReplaceUserHabit (h : String) (d : Int) (c : Bool) (db : Db) : Db :=
  { db with user_habits :=
      (db.user_habits.filter (fun r => ¬(r.habit_id = h ∧ r.date = d))) ++
        [⟨h, d, c⟩] }

/-- The insert loop of saveHabitSelection: each task is inserted at date d,
  completed when the completedSet contains it. -/
def insertTasks (d : Int) (comp : List String) (tasks : List String) (db : Db) : Db :=
  tasks.foldl (fun acc t => insertOrReplaceUserHabit t d (decide (t ∈ comp)) acc) db

/-- SELECT DISTINCT date FROM user_habits WHERE date > sourceDate
  ORDER BY date LIMIT 120, from syncFutureHabitSelections. -/
def distinctFutureDates (sourceDate : Int) (db : Db) : List Int :=
  (uniqueFirst (((db.user_habits.map (fun r => r.date)).filter
      (fun x => sourceDate < x)).insertionSort (· ≤ ·))).take 120

/-- syncFutureHabitSelections: for each of (at most 120) distinct later dates
  that already have rows, delete that date and reinsert the given tasks, each
  uncompleted. -/
def syncFutureHabitSelections (sourceDate : Int) (tasks : List String) (db : Db) : Db :=
  (distinctFutureDates sourceDate db).foldl
    (fun acc fd => insertTasks fd [] tasks (deleteDate fd acc)) db

/-- saveHabitSelection: dedup the tasks, replace all rows of dateKey with the
  deduped tasks (completed exactly when listed in selection.completed), then
  optionally propagate the task list to later dates. -/
def saveHabitSelection (dateKey : Int) (selection : HabitSelection)
    (propagateToFuture : Bool) (db : Db) : Db :=
  let uniqueTasks := uniqueFirst selection.tasks
  let base := insertTasks dateKey selection.completed uniqueTasks (deleteDate dateKey db)
  if propagateToFuture then syncFutureHabitSelections dateKey uniqueTasks base
  else base

/-- getCategoriesForTasks: SELECT DISTINCT category_id FROM habits WHERE id
  IN (taskIds), then drop NULLs. DISTINCT keeps the first occurrence in table
  scan order. -/
def getCategoriesForTasks (taskIds : List String) (db : Db) : List Int :=
  if taskIds = [] then []
  else
    (uniqueFirst ((db.habits.filter (fun h => h.id ∈ taskIds)).map
      (fun h => h.category_id))).filterMap (fun x => x)

/-- getSuggestedHabitsFromPreviousDay: find the latest date strictly before
  dateKey that has a row (ORDER BY date DESC LIMIT 1); if none, return [];
  otherwise return all habit ids of that date in id order, regardless of
  completion state. -/
def getSuggestedHabitsFromPreviousDay (dateKey : Int) (db : Db) : List String :=
  match (((db.user_habits.filter (fun r => r.date < dateKey)).map
      (fun r => r.date)).insertionSort (· ≥ ·)).head? with
  | none => []
  | some latestDate =>
      (db.user_habits.filter (fun r => r.date = latestDate)).map
        (fun r => r.habit_id)

/-- loadHabitSelection (success path): rows of the date in id order; when the
  date has no rows, compute the suggestion; when the suggestion is nonempty,
  build the derived selection (completed empty, categories recomputed),
  persist it for dateKey via saveHabitSelection without future propagation,
  and return it; otherwise return the empty selection. Returns the selection
  together with the resulting store. -/
def loadHabitSelection (dateKey : Int) (db : Db) : HabitSelection × Db :=
  let rows := db.user_habits.filter (fun r => r.date = dateKey)
  if rows = [] then
    let suggestedTasks := getSuggestedHabitsFromPreviousDay dateKey db
    if suggestedTasks = [] then (⟨[], [], []⟩, db)
    else
      let suggestedSelection : HabitSelection :=
        ⟨getCategoriesForTasks suggestedTasks db, suggestedTasks, []⟩
      (suggestedSelection, saveHabitSelection dateKey suggestedSelection false db)
  else
    (⟨getCategoriesForTasks (rows.map (fun r => r.habit_id)) db,
      rows.map (fun r => r.habit_id),
      (rows.filter (fun r => r.completed)).map (fun r => r.habit_id)⟩, db)

/-- loadAllHabitSelections: scan all rows ORDER BY date, id (a stable sort by
  date over insertion order), group them into one selection per date in first
  encounter order, then recompute categories per date. -/
def loadAllHabitSelections (db : Db) : List (Int × HabitSelection) :=
  let rows := db.user_habits.insertionSort (fun a b => a.date ≤ b.date)
  (uniqueFirst (rows.map (fun r => r.date))).map (fun dk =>
    let dayRows := rows.filter (fun r => r.date = dk)
    (dk, ⟨getCategoriesForTasks (dayRows.map (fun r => r.habit_id)) db,
          dayRows.map (fun r => r.habit_id),
          (dayRows.filter (fun r => r.completed)).map (fun r => r.habit_id)⟩))

/-- The generated custom habit id: custom_ then Date.now() then _ then a
  random suffix. Clock value and random suffix are inputs of the model. -/
def makeCustomHabitId (now : Nat) (rand : String) : String :=
  "custom_" ++ toString now ++ "_" ++ rand

/-- createCustomHabit: generate the id, INSERT INTO habits with category_id
  999 and category_name Custom, return the id. No validation of the name is
  performed. -/
def createCustomHabit (now : Nat) (rand : String)
    (name description icon : String) (db : Db) : String × Db :=
  let habitId := makeCustomHabitId now rand
  (habitId,
   { db with habits := db.habits ++
      [⟨habitId, name, some description, some icon, some 999, some "Custom"⟩] })

/-- Whitespace trimming at both ends, the semantics of the JS
  String.prototype.trim used by handleSave. -/
def jsTrim (s : String) : String :=
  ⟨((s.data.dropWhile Char.isWhitespace).reverse.dropWhile
      Char.isWhitespace).reverse⟩

/-- Catalog effect of handleSave in the create-habit screen: when the trimmed
  name is empty it alerts and returns without touching the store; otherwise it
  calls createCustomHabit with the trimmed name and description. -/
def handleSaveCreate (now : Nat) (rand : String)
    (habitName description icon : String) (db : Db) : Db :=
  if jsTrim habitName = "" then db
  else (createCustomHabit now rand (jsTrim habitName) (jsTrim description) icon db).2

/-- deleteCustomHabit: DELETE FROM user_habits WHERE habit_id = ?, then
  DELETE FROM habits WHERE id = ?. Both are no-ops when the id is absent. -/
def deleteCustomHabit (habitId : String) (db : Db) : Db :=
  { habits := db.habits.filter (fun r => r.id ≠ habitId),
    user_habits := db.user_habits.filter (fun r => r.habit_id ≠ habitId) }

/-- The streak walk shared by calculateHabitStreak and getHabitStreaks: given
  the completed dates newest first, the i-th date is compared with
  targetDate minus the current streak in calendar days; on a match the streak
  grows, otherwise the walk stops. -/
def streakWalk (targetDate : Int) : Nat → List Int → Nat
  | streak, [] => streak
  | streak, x :: xs =>
      if x = targetDate - (streak : Int) then streakWalk targetDate (streak + 1) xs
      else streak

/-- The dates of completed rows of one habit up to the target date, newest
  first: SELECT date ... WHERE habit_id = ? AND completed = 1 AND date <= ?
  ORDER BY date DESC. -/
def completedDatesDesc (habitId : String) (targetDate : Int) (db : Db) : List Int :=
  ((db.user_habits.filter (fun r =>
      r.habit_id = habitId ∧ r.completed = true ∧ r.date ≤ targetDate)).map
    (fun r => r.date)).insertionSort (· ≥ ·)

/-- calculateHabitStreak: walk the newest 100 completed dates (LIMIT 100)
  backwards from the target date. An empty list yields 0, as in the early
  return of the source. -/
def calculateHabitStreak (habitId : String) (targetDate : Int) (db : Db) : Nat :=
  streakWalk targetDate 0 ((completedDatesDesc habitId targetDate db).take 100)

/-- The sort order of the batch query ORDER BY habit_id, date DESC. SQLite
  orders TEXT by byte sequence (BINARY collation), which on UTF-8 strings is
  the codepoint-lexicographic order, modelled by the order on the underlying
  character lists. -/
def rowLe (a b : UserHabitRow) : Prop :=
  a.habit_id.data < b.habit_id.data ∨ (a.habit_id = b.habit_id ∧ b.date ≤ a.date)

instance : DecidableRel rowLe := fun a b => by
  unfold rowLe; infer_instance

/-- The rows fetched by getHabitStreaks: completed rows of the requested
  habits up to the target date, ORDER BY habit_id, date DESC (no LIMIT). -/
def batchSortedRows (habitIds : List String) (targetDate : Int) (db : Db) :
    List UserHabitRow :=
  (db.user_habits.filter (fun r =>
      r.habit_id ∈ habitIds ∧ r.completed = true ∧ r.date ≤ targetDate)).insertionSort
    rowLe

/-- getHabitStreaks: one batched query, group the rows by habit id preserving
  the sorted order (each group is that habit in date-descending order), then
  run the same walk per habit; habits with no rows get streak 0 (the walk on
  the empty list). The record of streaks is modelled as an association list
  in habitIds order. -/
def getHabitStreaks (habitIds : List String) (targetDate : Int) (db : Db) :
    List (String × Nat) :=
  if habitIds = [] then []
  else
    let rows := batchSortedRows habitIds targetDate db
    habitIds.map (fun h =>
      (h, streakWalk targetDate 0
            ((rows.filter (fun r => r.habit_id = h)).map (fun r => r.date))))

/-- Failure injection for the exception-level model of loadHabitSelection:
  one flag per underlying store operation that can throw. -/
structure DbFailure where
  openFails : Bool
  selectDayFails : Bool
  suggestFails : Bool
  categoriesFails : Bool
  persistFails : Bool
deriving DecidableEq, Repr

/-- Exception-level model of loadHabitSelection, following the try and catch
  structure of the source: the initial getDatabase await sits before the try
  block, so its failure propagates; a failure of the day query or of the
  category lookup is caught by the outer catch, which returns the empty
  selection; the suggestion helper catches its own failures and yields [];
  a failure while persisting the suggested selection is caught by the inner
  try, which keeps the suggested selection and leaves the store unchanged. -/
def loadHabitSelectionExc (f : DbFailure) (dateKey : Int) (db : Db) :
    Except Unit (HabitSelection × Db) :=
  if f.openFails then .error ()
  else .ok (
    if f.selectDayFails then (⟨[], [], []⟩, db)
    else
      let rows := db.user_habits.filter (fun r => r.date = dateKey)
      if rows = [] then
        let suggestedTasks :=
          if f.suggestFails then []
          else getSuggestedHabitsFromPreviousDay dateKey db
        if suggestedTasks = [] then (⟨[], [], []⟩, db)
        else if f.categoriesFails then (⟨[], [], []⟩, db)
        else
          let suggestedSelection : HabitSelection :=
            ⟨getCategoriesForTasks suggestedTasks db, suggestedTasks, []⟩
          if f.persistFails then (suggestedSelection, db)
          else (suggestedSelection,
                saveHabitSelection dateKey suggestedSelection false db)
      else
        if f.categoriesFails then (⟨[], [], []⟩, db)
        else
          (⟨getCategoriesForTasks (rows.map (fun r => r.habit_id)) db,
            rows.map (fun r => r.habit_id),
            (rows.filter (fun r => r.completed)).map (fun r => r.habit_id)⟩, db))

/-- Whether an Except value is a success. -/
def exceptIsOk {α : Type} : Except Unit α → Bool
  | .ok _ => true
  | .error _ => false

/-! Helper lemmas about the write path. -/

theorem filter_date_insertOrReplace (p : Int → Bool) (t : String) (d : Int)
    (c : Bool) (db : Db) (hp : p d = false) :
    ((insertOrReplaceUserHabit t d c db).user_habits.filter (fun r => p r.date))
      = db.user_habits.filter (fun r => p r.date) := by
  unfold insertOrReplaceUserHabit
  simp only [List.filter_append, List.filter_cons, List.filter_nil]
  rw [List.filter_filter]
  have h1 : ∀ r ∈ db.user_habits,
      (p r.date && decide ¬(r.habit_id = t ∧ r.date = d)) = p r.date := by
    intro r _
    by_cases hd : r.date = d
    · simp [hd, hp]
    · simp [hd]
  rw [List.filter_congr h1]
  have : p (⟨t, d, c⟩ : UserHabitRow).date = false := hp
  simp [this]

theorem filter_date_insertTasks (p : Int → Bool) (d : Int) (comp : List String)
    (hp : p d = false) :
    ∀ (ts : List String) (db : Db),
      ((insertTasks d comp ts db).user_habits.filter (fun r => p r.date))
        = db.user_habits.filter (fun r => p r.date) := by
  intro ts
  induction ts with
  | nil => intro db; rfl
  | cons t ts ih =>
      intro db
      show ((insertTasks d comp ts (insertOrReplaceUserHabit t d _ db)).user_habits.filter _) = _
      rw [ih, filter_date_insertOrReplace p t d _ db hp]

theorem filter_date_deleteDate (p : Int → Bool) (d : Int) (db : Db)
    (hp : p d = false) :
    ((deleteDate d db).user_habits.filter (fun r => p r.date))
      = db.user_habits.filter (fun r => p r.date) := by
  unfold deleteDate
  rw [List.filter_filter]
  apply List.filter_congr
  intro r _
  by_cases hd : r.date = d
  · simp [hd, hp]
  · simp [hd]

theorem filter_date_saveBase (p : Int → Bool) (d : Int) (comp ts : List String)
    (db : Db) (hp : p d = false) :
    ((insertTasks d comp ts (deleteDate d db)).user_habits.filter (fun r => p r.date))
      = db.user_habits.filter (fun r => p r.date) := by
  rw [filter_date_insertTasks p d comp hp, filter_date_deleteDate p d db hp]

theorem insertOrReplace_no_conflict (t : String) (d : Int) (c : Bool) (db : Db)
    (h : ∀ r ∈ db.user_habits, ¬(r.habit_id = t ∧ r.date = d)) :
    (insertOrReplaceUserHabit t d c db).user_habits
      = db.user_habits ++ [⟨t, d, c⟩] := by
  unfold insertOrReplaceUserHabit
  dsimp only
  congr 1
  apply List.filter_eq_self.mpr
  intro r hr
  exact decide_eq_true (h r hr)

theorem insertTasks_append (d : Int) (comp : List String) :
    ∀ (ts : List String) (db : Db), ts.Nodup →
      (∀ t ∈ ts, ∀ r ∈ db.user_habits, ¬(r.habit_id = t ∧ r.date = d)) →
      (insertTasks d comp ts db).user_habits
        = db.user_habits ++ ts.map (fun t => ⟨t, d, decide (t ∈ comp)⟩) := by
  intro ts
  induction ts with
  | nil => intro db _ _; simp [insertTasks]
  | cons t ts ih =>
      intro db hnd hconf
      have hstep : (insertOrReplaceUserHabit t d (decide (t ∈ comp)) db).user_habits
          = db.user_habits ++ [⟨t, d, decide (t ∈ comp)⟩] :=
        insertOrReplace_no_conflict t d _ db (hconf t (List.mem_cons_self t ts))
      show (insertTasks d comp ts (insertOrReplaceUserHabit t d _ db)).user_habits = _
      rw [ih _ (List.Nodup.of_cons hnd), hstep, List.append_assoc]
      · rfl
      · intro t' ht' r hr
        rw [hstep] at hr
        rcases List.mem_append.mp hr with hr | hr
        · exact hconf t' (List.mem_cons_of_mem t ht') r hr
        · simp only [List.mem_singleton] at hr
          subst hr
          rintro ⟨he, _⟩
          have het : t = t' := he
          subst het
          exact (List.nodup_cons.mp hnd).1 ht'

theorem insertTasks_day_rows (d : Int) (comp ts : List String) (db : Db)
    (hts : ts.Nodup) :
    ((insertTasks d comp ts (deleteDate d db)).user_habits.filter
        (fun r => r.date = d))
      = ts.map (fun t => ⟨t, d, decide (t ∈ comp)⟩) := by
  rw [insertTasks_append d comp ts (deleteDate d db) hts ?conf]
  case conf =>
    intro t _ r hr
    have : r.date ≠ d := by
      have := List.mem_filter.mp hr
      simpa using this.2
    rintro ⟨_, he⟩
    exact this he
  rw [List.filter_append]
  have h1 : ((deleteDate d db).user_habits.filter (fun r => r.date = d)) = [] := by
    apply List.filter_eq_nil_iff.mpr
    intro r hr
    have : r.date ≠ d := by
      have := List.mem_filter.mp hr
      simpa using this.2
    simpa using this
  have h2 : ((ts.map (fun t => (⟨t, d, decide (t ∈ comp)⟩ : UserHabitRow))).filter
      (fun r => r.date = d)) = ts.map (fun t => ⟨t, d, decide (t ∈ comp)⟩) := by
    apply List.filter_eq_self.mpr
    intro r hr
    rcases List.mem_map.mp hr with ⟨t, _, rfl⟩
    simp
  rw [h1, h2, List.nil_append]

theorem filter_map_dates (p : Int → Bool) (l : List UserHabitRow) :
    (l.map (fun r => r.date)).filter p
      = (l.filter (fun r => p r.date)).map (fun r => r.date) := by
  induction l with
  | nil => rfl
  | cons r l ih =>
      simp only [List.map_cons, List.filter_cons]
      by_cases hp : p r.date
      · simp [hp, ih]
      · simp [hp, ih]

theorem mem_distinctFutureDates (d fd : Int) (db : Db)
    (h : fd ∈ distinctFutureDates d db) : d < fd := by
  unfold distinctFutureDates at h
  have h1 := List.mem_of_mem_take h
  rw [mem_uniqueFirst] at h1
  have h2 := (List.perm_insertionSort _ _).mem_iff.mp h1
  have h3 := (List.mem_filter.mp h2).2
  simpa using h3

theorem nodup_distinctFutureDates (d : Int) (db : Db) :
    (distinctFutureDates d db).Nodup :=
  (nodup_uniqueFirst _).sublist (List.take_sublist _ _)

theorem distinctFutureDates_saveBase (d : Int) (comp ts : List String) (db : Db) :
    distinctFutureDates d (insertTasks d comp ts (deleteDate d db))
      = distinctFutureDates d db := by
  unfold distinctFutureDates
  congr 2
  rw [filter_map_dates, filter_map_dates]
  rw [filter_date_saveBase (fun x => decide (d < x)) d comp ts db (by simp)]

/-- One step of the future-sync loop. -/
def syncStep (tasks : List String) (acc : Db) (fd : Int) : Db :=
  insertTasks fd [] tasks (deleteDate fd acc)

theorem syncStep_filter_date (p : Int → Bool) (tasks : List String) (fd : Int)
    (acc : Db) (hp : p fd = false) :
    ((syncStep tasks acc fd).user_habits.filter (fun r => p r.date))
      = acc.user_habits.filter (fun r => p r.date) := by
  unfold syncStep
  rw [filter_date_insertTasks p fd [] hp, filter_date_deleteDate p fd acc hp]

theorem syncFold_frame (p : Int → Bool) (tasks : List String) :
    ∀ (fds : List Int) (db : Db), (∀ fd ∈ fds, p fd = false) →
      (((fds.foldl (syncStep tasks) db).user_habits).filter (fun r => p r.date))
        = db.user_habits.filter (fun r => p r.date) := by
  intro fds
  induction fds with
  | nil => intro db _; rfl
  | cons fd fds ih =>
      intro db hall
      rw [List.foldl_cons, ih _ (fun x hx => hall x (List.mem_cons_of_mem fd hx)),
        syncStep_filter_date p tasks fd db (hall fd (List.mem_cons_self fd fds))]

theorem syncFold_mem (tasks : List String) (d' : Int) (hts : tasks.Nodup) :
    ∀ (fds : List Int) (db : Db), fds.Nodup → d' ∈ fds →
      (((fds.foldl (syncStep tasks) db).user_habits).filter (fun r => r.date = d'))
        = tasks.map (fun t => ⟨t, d', false⟩) := by
  intro fds
  induction fds with
  | nil => intro db _ hmem; cases hmem
  | cons fd fds ih =>
      intro db hnd hmem
      rw [List.foldl_cons]
      rcases List.mem_cons.mp hmem with rfl | hmem
      · have hnot : d' ∉ fds := (List.nodup_cons.mp hnd).1
        have hframe := syncFold_frame (fun x => decide (x = d')) tasks fds
          (syncStep tasks db d')
          (fun x hx => by
            simp only [decide_eq_false_iff_not]
            intro he
            exact hnot (he ▸ hx))
        rw [hframe]
        unfold syncStep
        rw [insertTasks_day_rows d' [] tasks db hts]
        apply List.map_congr_left
        intro t _
        simp
      · exact ih _ (List.Nodup.of_cons hnd) hmem

theorem save_false_eq (d : Int) (sel : HabitSelection) (db : Db) :
    saveHabitSelection d sel false db
      = insertTasks d sel.completed (uniqueFirst sel.tasks) (deleteDate d db) := rfl

theorem save_true_eq (d : Int) (sel : HabitSelection) (db : Db) :
    saveHabitSelection d sel true db
      = (distinctFutureDates d
            (insertTasks d sel.completed (uniqueFirst sel.tasks) (deleteDate d db))).foldl
          (syncStep (uniqueFirst sel.tasks))
          (insertTasks d sel.completed (uniqueFirst sel.tasks) (deleteDate d db)) := rfl

theorem save_day_rows (d : Int) (sel : HabitSelection) (db : Db) (prop : Bool) :
    ((saveHabitSelection d sel prop db).user_habits.filter (fun r => r.date = d))
      = (uniqueFirst sel.tasks).map (fun t => ⟨t, d, decide (t ∈ sel.completed)⟩) := by
  cases prop with
  | false =>
      rw [save_false_eq]
      exact insertTasks_day_rows d sel.completed (uniqueFirst sel.tasks) db
        (nodup_uniqueFirst _)
  | true =>
      rw [save_true_eq]
      rw [syncFold_frame (fun x => decide (x = d)) (uniqueFirst sel.tasks) _ _ ?hall]
      case hall =>
        intro fd hfd
        have := mem_distinctFutureDates d fd _ hfd
        simp only [decide_eq_false_iff_not]
        omega
      exact insertTasks_day_rows d sel.completed (uniqueFirst sel.tasks) db
        (nodup_uniqueFirst _)

/-- C4: after every writeSelection (saveHabitSelection) call, with or without
  future propagation and for arbitrary input selections (duplicate tasks,
  completed entries not among tasks), the persisted rows of the written
  dateKey have pairwise distinct habit ids and their completed ids are a
  subset of their task ids. -/
theorem c4_write_invariants (db : Db) (d : Int) (sel : HabitSelection) (prop : Bool) :
    ((((saveHabitSelection d sel prop db).user_habits.filter (fun r => r.date = d)).map
        (fun r => r.habit_id)).Nodup) ∧
    ((((saveHabitSelection d sel prop db).user_habits.filter (fun r => r.date = d)).filter
        (fun r => r.completed)).map (fun r => r.habit_id))
      ⊆ (((saveHabitSelection d sel prop db).user_habits.filter (fun r => r.date = d)).map
        (fun r => r.habit_id)) := by
  refine ⟨?_, List.map_subset _ (fun a ha => List.mem_of_mem_filter ha)⟩
  rw [save_day_rows, List.map_map]
  have : ((fun r => r.habit_id) ∘ fun t =>
      (⟨t, d, decide (t ∈ sel.completed)⟩ : UserHabitRow)) = fun t => t := rfl
  rw [this]
  simpa using nodup_uniqueFirst sel.tasks

/-- C7: writeSelection without future propagation does not alter the
  DayEntries of any other date: for every other dateKey the rows before and
  after the call are identical, for every input selection. -/
theorem c7_no_propagation_frame (db : Db) (d : Int) (sel : HabitSelection)
    (d' : Int) (hne : d' ≠ d) :
    ((saveHabitSelection d sel false db).user_habits.filter (fun r => r.date = d'))
      = db.user_habits.filter (fun r => r.date = d') := by
  rw [save_false_eq]
  exact filter_date_saveBase (fun x => decide (x = d')) d sel.completed _ db
    (decide_eq_false_iff_not.mpr (fun h => hne h.symm))

theorem mem_dates_of_mem_distinctFutureDates (d fd : Int) (db : Db)
    (h : fd ∈ distinctFutureDates d db) :
    fd ∈ db.user_habits.map (fun r => r.date) := by
  unfold distinctFutureDates at h
  have h1 := List.mem_of_mem_take h
  rw [mem_uniqueFirst] at h1
  have h2 := (List.perm_insertionSort _ _).mem_iff.mp h1
  exact (List.mem_filter.mp h2).1

/-- C6 (amended): with future propagation, every later dateKey among the
  first 120 distinct dates that already have a DayEntry is replaced with the
  written (deduplicated) task list, all uncompleted; every other later
  dateKey keeps exactly its previous rows, so later dates with no DayEntry
  gain none and distinct later dates beyond the 120-date window are left
  untouched. -/
theorem c6_propagation (db : Db) (d : Int) (sel : HabitSelection) (d' : Int)
    (hlt : d < d') :
    (d' ∈ distinctFutureDates d db →
      ((saveHabitSelection d sel true db).user_habits.filter (fun r => r.date = d'))
        = (uniqueFirst sel.tasks).map (fun t => ⟨t, d', false⟩)) ∧
    (d' ∉ distinctFutureDates d db →
      ((saveHabitSelection d sel true db).user_habits.filter (fun r => r.date = d'))
        = db.user_habits.filter (fun r => r.date = d')) ∧
    ((∀ r ∈ db.user_habits, r.date ≠ d') →
      ((saveHabitSelection d sel true db).user_habits.filter (fun r => r.date = d'))
        = []) := by
  rw [save_true_eq, distinctFutureDates_saveBase]
  have hframe_base :
      ∀ _ : d' ∉ distinctFutureDates d db,
        (((distinctFutureDates d db).foldl (syncStep (uniqueFirst sel.tasks))
            (insertTasks d sel.completed (uniqueFirst sel.tasks) (deleteDate d db))).user_habits.filter
          (fun r => r.date = d'))
          = db.user_habits.filter (fun r => r.date = d') := by
    intro hnm
    rw [syncFold_frame (fun x => decide (x = d')) (uniqueFirst sel.tasks) _ _
      (fun fd hfd => decide_eq_false_iff_not.mpr (fun he => hnm (he ▸ hfd)))]
    exact filter_date_saveBase (fun x => decide (x = d')) d sel.completed _ db
      (decide_eq_false_iff_not.mpr (by omega))
  refine ⟨?_, hframe_base, ?_⟩
  · intro hmem
    exact syncFold_mem (uniqueFirst sel.tasks) d' (nodup_uniqueFirst _) _ _
      (nodup_distinctFutureDates d db) hmem
  · intro hno
    have hnm : d' ∉ distinctFutureDates d db := by
      intro hmem
      have := mem_dates_of_mem_distinctFutureDates d d' db hmem
      rcases List.mem_map.mp this with ⟨r, hr, he⟩
      exact hno r hr he
    rw [hframe_base hnm]
    apply List.filter_eq_nil_iff.mpr
    intro r hr
    simpa using hno r hr

/-- A small concrete store: catalog with habits A and B, DayEntries on date
  10 (A completed, B scheduled) and date 12 (A scheduled). -/
def dbEx : Db :=
  ⟨[⟨"A", "Alpha", none, none, some 1, some "Fitness"⟩,
    ⟨"B", "Beta", none, none, some 2, some "Mind"⟩],
   [⟨"A", 10, true⟩, ⟨"B", 10, false⟩, ⟨"A", 12, false⟩]⟩

/-- A store whose habit a has a DayEntry on each of the 121 distinct dates
  1 through 121. -/
def db121 : Db :=
  ⟨[], (List.range 121).map (fun i => ⟨"a", (i : Int) + 1, true⟩)⟩

set_option maxRecDepth 100000 in
/-- C6 counterexample: with 121 distinct later dates that all have
  DayEntries, propagating from date 0 with task list containing only b
  replaces dates 1 through 120 but leaves date 121 untouched (the source
  query carries LIMIT 120), contradicting the claim that every later dateKey
  with a DayEntry is replaced. -/
theorem c6_counterexample :
    (((saveHabitSelection 0 ⟨[], ["b"], []⟩ true db121).user_habits.filter
        (fun r => r.date = 121)) = [⟨"a", 121, true⟩]) ∧
    (((saveHabitSelection 0 ⟨[], ["b"], []⟩ true db121).user_habits.filter
        (fun r => r.date = 120)) = [⟨"b", 120, false⟩]) := by
  constructor
  · decide
  · decide

/-- C6 witness: on the small store, propagating from date 11 replaces the
  existing later date 12 with the written task, uncompleted, while date 13
  (no DayEntry) gains none. -/
theorem c6_witness :
    (((saveHabitSelection 11 ⟨[], ["x"], []⟩ true dbEx).user_habits.filter
        (fun r => r.date = 12)) = [⟨"x", 12, false⟩]) ∧
    (((saveHabitSelection 11 ⟨[], ["x"], []⟩ true dbEx).user_habits.filter
        (fun r => r.date = 13)) = []) :=
  ⟨((c6_propagation dbEx 11 ⟨[], ["x"], []⟩ 12 (by decide)).1 (by decide)).trans
      (by decide),
   (c6_propagation dbEx 11 ⟨[], ["x"], []⟩ 13 (by decide)).2.2 (by decide)⟩

/-- C7 witness: saving date 5 without propagation leaves the rows of date 10
  unchanged on the small store. -/
theorem c7_witness :
    ((saveHabitSelection 5 ⟨[], ["x"], []⟩ false dbEx).user_habits.filter
        (fun r => r.date = 10))
      = dbEx.user_habits.filter (fun r => r.date = 10) :=
  c7_no_propagation_frame dbEx 5 ⟨[], ["x"], []⟩ 10 (by decide)

theorem head_sortDesc_max (l : List Int) (m : Int) (hm : m ∈ l)
    (hmax : ∀ x ∈ l, x ≤ m) :
    (l.insertionSort (· ≥ ·)).head? = some m := by
  have hperm := List.perm_insertionSort (· ≥ ·) l
  have hsort := List.sorted_insertionSort (· ≥ ·) l
  cases hs : l.insertionSort (· ≥ ·) with
  | nil =>
      rw [hs] at hperm
      have : m ∈ ([] : List Int) := hperm.mem_iff.mpr hm
      simp at this
  | cons a t =>
      rw [hs] at hperm hsort
      have ham : a ∈ l := hperm.mem_iff.mp (List.mem_cons_self a t)
      have h1 : a ≤ m := hmax a ham
      have hm2 : m ∈ a :: t := hperm.mem_iff.mpr hm
      rcases List.mem_cons.mp hm2 with rfl | hm3
      · rfl
      · have h2 : a ≥ m := List.rel_of_sorted_cons hsort m hm3
        rw [le_antisymm h1 h2]
        rfl

/-- C2: the suggestion operation returns [] when no date strictly earlier
  than dateKey has a DayEntry; otherwise, when m is the maximum date
  strictly earlier than dateKey that has a DayEntry, it returns the full
  task list of date m in insertion (id) order — every row of that date,
  regardless of completion state and of whether the habit is custom. -/
theorem c2_suggestion (db : Db) (d : Int) :
    ((∀ r ∈ db.user_habits, ¬(r.date < d)) →
      getSuggestedHabitsFromPreviousDay d db = []) ∧
    (∀ m, m < d → (∃ r ∈ db.user_habits, r.date = m) →
      (∀ r ∈ db.user_habits, r.date < d → r.date ≤ m) →
      getSuggestedHabitsFromPreviousDay d db
        = (db.user_habits.filter (fun r => r.date = m)).map (fun r => r.habit_id)) := by
  constructor
  · intro hnone
    unfold getSuggestedHabitsFromPreviousDay
    have h0 : (db.user_habits.filter (fun r => r.date < d)) = [] :=
      List.filter_eq_nil_iff.mpr (fun r hr => by simpa using hnone r hr)
    rw [h0]
    rfl
  · rintro m hmd ⟨r0, hr0, hr0d⟩ hmax
    unfold getSuggestedHabitsFromPreviousDay
    have hhead : (((db.user_habits.filter (fun r => r.date < d)).map
        (fun r => r.date)).insertionSort (· ≥ ·)).head? = some m := by
      apply head_sortDesc_max
      · exact List.mem_map.mpr
          ⟨r0, List.mem_filter.mpr ⟨hr0, by simp [hr0d, hmd]⟩, hr0d⟩
      · intro x hx
        rcases List.mem_map.mp hx with ⟨r, hr, rfl⟩
        have hmem := List.mem_filter.mp hr
        exact hmax r hmem.1 (by simpa using hmem.2)
    rw [hhead]

/-- C2 witness: the spec test case. DayEntries exist only on dates 10
  (tasks A, B) and 12 (tasks A); suggesting for 11 yields the full list of
  date 10, suggesting for 13 yields the list of date 12, suggesting for 9
  yields []. -/
theorem c2_witness :
    getSuggestedHabitsFromPreviousDay 11 dbEx = ["A", "B"] ∧
    getSuggestedHabitsFromPreviousDay 13 dbEx = ["A"] ∧
    getSuggestedHabitsFromPreviousDay 9 dbEx = [] :=
  ⟨((c2_suggestion dbEx 11).2 10 (by decide)
      ⟨⟨"A", 10, true⟩, by decide, rfl⟩ (by decide)).trans (by decide),
   ((c2_suggestion dbEx 13).2 12 (by decide)
      ⟨⟨"A", 12, false⟩, by decide, rfl⟩ (by decide)).trans (by decide),
   (c2_suggestion dbEx 9).1 (by decide)⟩

/-- C5 (amended): reading a dateKey with no DayEntry returns the suggestion
  with completed = [] and categories recomputed from the suggested tasks;
  when the suggestion is empty the store is left unchanged, and in every
  case no DayEntry of any other date is created, modified or deleted — but
  when the suggestion is nonempty the function persists the suggested
  selection for the read dateKey (a write the claim rules out). -/
theorem c5_read_derives (db : Db) (d : Int)
    (hempty : db.user_habits.filter (fun r => r.date = d) = []) :
    ((loadHabitSelection d db).1.completed = []) ∧
    ((loadHabitSelection d db).1.tasks = getSuggestedHabitsFromPreviousDay d db) ∧
    ((loadHabitSelection d db).1.categories
        = getCategoriesForTasks (getSuggestedHabitsFromPreviousDay d db) db) ∧
    (getSuggestedHabitsFromPreviousDay d db = [] → (loadHabitSelection d db).2 = db) ∧
    (∀ d', d' ≠ d →
      ((loadHabitSelection d db).2.user_habits.filter (fun r => r.date = d'))
        = db.user_habits.filter (fun r => r.date = d')) := by
  unfold loadHabitSelection
  rw [hempty]
  simp only [if_pos rfl]
  by_cases hs : getSuggestedHabitsFromPreviousDay d db = []
  · rw [if_pos hs]
    refine ⟨rfl, hs.symm, ?_, fun _ => rfl, fun d' _ => rfl⟩
    rw [hs]
    rfl
  · rw [if_neg hs]
    refine ⟨rfl, rfl, rfl, fun h => absurd h hs, fun d' hne => ?_⟩
    show ((saveHabitSelection d _ false db).user_habits.filter _) = _
    rw [save_false_eq]
    exact filter_date_saveBase (fun x => decide (x = d')) d _ _ db
      (decide_eq_false_iff_not.mpr (fun h => hne h.symm))

/-- The store of the C5 counterexample: a single DayEntry on date 0. -/
def dbC5 : Db := ⟨[], [⟨"a", 0, true⟩]⟩

/-- C5 counterexample: reading date 1, which has no DayEntry, mutates the
  store — it inserts the suggested habit a as a DayEntry of date 1 —
  contradicting the claim that the read creates no DayEntry for any date. -/
theorem c5_counterexample :
    ((loadHabitSelection 1 dbC5).2 ≠ dbC5) ∧
    ((loadHabitSelection 1 dbC5).2.user_habits
      = [⟨"a", 0, true⟩, ⟨"a", 1, false⟩]) := by
  constructor
  · decide
  · decide

/-- C5 witness: on the small store, reading the empty date 11 yields the
  suggestion with completed = [] and leaves the rows of date 10 unchanged. -/
theorem c5_witness :
    ((loadHabitSelection 11 dbEx).1.completed = []) ∧
    ((loadHabitSelection 11 dbEx).1.tasks
        = getSuggestedHabitsFromPreviousDay 11 dbEx) ∧
    (((loadHabitSelection 11 dbEx).2.user_habits.filter (fun r => r.date = 10))
        = dbEx.user_habits.filter (fun r => r.date = 10)) :=
  ⟨(c5_read_derives dbEx 11 (by decide)).1,
   (c5_read_derives dbEx 11 (by decide)).2.1,
   (c5_read_derives dbEx 11 (by decide)).2.2.2.2 10 (by decide)⟩

theorem streakWalk_cons (t : Int) (s : Nat) (x : Int) (xs : List Int) :
    streakWalk t s (x :: xs)
      = if x = t - (s : Int) then streakWalk t (s + 1) xs else s := rfl

theorem streakWalk_descRun (t : Int) :
    ∀ (m s : Nat),
      streakWalk t s ((List.range m).map (fun (i : Nat) => t - (s : Int) - (i : Int)))
        = s + m := by
  intro m
  induction m with
  | zero => intro s; rfl
  | succ m ih =>
      intro s
      rw [List.range_succ_eq_map, List.map_cons, List.map_map, streakWalk_cons,
        if_pos (by simp)]
      have hfun : ((fun i : Nat => t - (s : Int) - (i : Int)) ∘ Nat.succ)
          = fun i : Nat => t - ((s + 1 : Nat) : Int) - (i : Int) := by
        funext i
        simp only [Function.comp]
        push_cast
        ring
      rw [hfun, ih (s + 1)]
      omega

/-- A store in which the habit h is completed on exactly the days X through
  d and nothing else is recorded: one completed DayEntry per day of the run,
  newest first. -/
def runStore (h : String) (X d : Int) : Db :=
  ⟨[], (List.range (d - X + 1).toNat).map (fun (i : Nat) => ⟨h, d - (i : Int), true⟩)⟩

theorem calculateHabitStreak_runStore (h : String) (X d : Int) :
    calculateHabitStreak h d (runStore h X d) = min (d - X + 1).toNat 100 := by
  unfold calculateHabitStreak completedDatesDesc runStore
  have hfilter : (((List.range (d - X + 1).toNat).map
      (fun (i : Nat) => (⟨h, d - (i : Int), true⟩ : UserHabitRow))).filter
        (fun r => r.habit_id = h ∧ r.completed = true ∧ r.date ≤ d))
      = (List.range (d - X + 1).toNat).map (fun (i : Nat) => ⟨h, d - (i : Int), true⟩) := by
    apply List.filter_eq_self.mpr
    intro r hr
    rcases List.mem_map.mp hr with ⟨i, _, rfl⟩
    simp only [decide_eq_true_eq]
    refine ⟨by trivial, by trivial, by omega⟩
  rw [hfilter, List.map_map]
  have hdates : ((fun r : UserHabitRow => r.date) ∘
      (fun i : Nat => (⟨h, d - (i : Int), true⟩ : UserHabitRow)))
      = fun i : Nat => d - (i : Int) := rfl
  rw [hdates]
  have hsorted : List.Sorted (· ≥ ·)
      ((List.range (d - X + 1).toNat).map (fun i : Nat => d - (i : Int))) := by
    apply List.pairwise_map.mpr
    apply List.Pairwise.imp ?_ (List.pairwise_lt_range _)
    intro a b hab
    omega
  rw [List.Sorted.insertionSort_eq hsorted, ← List.map_take, List.take_range]
  have hfun : (fun i : Nat => d - ((0 : Nat) : Int) - (i : Int))
      = fun i : Nat => d - (i : Int) := by
    funext i
    simp
  have hwalk := streakWalk_descRun d (100 ⊓ (d - X + 1).toNat) 0
  rw [hfun] at hwalk
  rw [hwalk]
  omega

theorem calculateHabitStreak_not_completed (db : Db) (h : String) (d : Int)
    (hnc : ∀ r ∈ db.user_habits, r.habit_id = h → r.date = d → r.completed = false) :
    calculateHabitStreak h d db = 0 := by
  unfold calculateHabitStreak
  cases hc : (completedDatesDesc h d db).take 100 with
  | nil => rfl
  | cons x xs =>
      rw [streakWalk_cons]
      have hx : x ∈ completedDatesDesc h d db :=
        List.mem_of_mem_take (hc ▸ List.mem_cons_self x xs)
      unfold completedDatesDesc at hx
      have hx2 := (List.perm_insertionSort _ _).mem_iff.mp hx
      rcases List.mem_map.mp hx2 with ⟨r, hr, rfl⟩
      have hmem := List.mem_filter.mp hr
      have hprops : r.habit_id = h ∧ r.completed = true ∧ r.date ≤ d := by
        simpa using hmem.2
      have hneq : r.date ≠ d := by
        intro he
        have hfalse := hnc r hmem.1 hprops.1 he
        rw [hprops.2.1] at hfalse
        cases hfalse
      rw [if_neg (by simpa using hneq)]

/-- C1 (amended): the streak is the length of the unbroken completed run
  ending exactly on the target date, capped at 100 by the LIMIT 100 of the
  source query. When (h, d) itself is not completed, the streak is 0 even if
  earlier days are completed; when h is completed on exactly the days X
  through d, the streak is min (d - X + 1) 100 — in particular d - X + 1
  whenever the run is at most 100 days, and 1 when X = d. -/
theorem c1_streak (db : Db) (h : String) (d X : Int) :
    ((∀ r ∈ db.user_habits, r.habit_id = h → r.date = d → r.completed = false) →
      calculateHabitStreak h d db = 0) ∧
    (X ≤ d → calculateHabitStreak h d (runStore h X d) = min (d - X + 1).toNat 100) :=
  ⟨calculateHabitStreak_not_completed db h d,
   fun _ => calculateHabitStreak_runStore h X d⟩

set_option maxRecDepth 100000 in
/-- C1 counterexample: with habit a completed on every day 0 through 100
  (an unbroken 101-day run ending on the target date 100), the source
  returns 100, not the run length 101 the claim requires — the LIMIT 100 of
  the query caps the walk. -/
theorem c1_counterexample :
    calculateHabitStreak "a" 100 (runStore "a" 0 100) = 100 ∧
    calculateHabitStreak "a" 100 (runStore "a" 0 100) ≠ ((100 : Int) - 0 + 1).toNat := by
  constructor
  · decide
  · decide

/-- C1 witness: habit h completed on days 13 and 14 but not on the target
  day 15 has streak 0, and habit h completed on exactly days 13 through 15
  has streak 3 as of day 15. -/
theorem c1_witness :
    calculateHabitStreak "h" 15 (⟨[], [⟨"h", 13, true⟩, ⟨"h", 14, true⟩]⟩ : Db) = 0 ∧
    calculateHabitStreak "h" 15 (runStore "h" 13 15) = 3 :=
  ⟨(c1_streak ⟨[], [⟨"h", 13, true⟩, ⟨"h", 14, true⟩]⟩ "h" 15 0).1 (by decide),
   ((c1_streak (runStore "h" 13 15) "h" 15 13).2 (by decide)).trans (by decide)⟩

instance : IsTotal UserHabitRow rowLe := ⟨by
  intro a b
  rcases lt_trichotomy a.habit_id.data b.habit_id.data with h | h | h
  · exact Or.inl (Or.inl h)
  · have he : a.habit_id = b.habit_id := String.ext h
    rcases le_total b.date a.date with hd | hd
    · exact Or.inl (Or.inr ⟨he, hd⟩)
    · exact Or.inr (Or.inr ⟨he.symm, hd⟩)
  · exact Or.inr (Or.inl h)⟩

instance : IsTrans UserHabitRow rowLe := ⟨by
  intro a b c hab hbc
  rcases hab with h1 | ⟨h1, hd1⟩
  · rcases hbc with h2 | ⟨h2, _⟩
    · exact Or.inl (h1.trans h2)
    · exact Or.inl (lt_of_lt_of_eq h1 (congrArg String.data h2))
  · rcases hbc with h2 | ⟨h2, hd2⟩
    · exact Or.inl (lt_of_eq_of_lt (congrArg String.data h1) h2)
    · exact Or.inr ⟨h1.trans h2, le_trans hd2 hd1⟩⟩

theorem pairwise_imp_of_mem {α : Type} {R S : α → α → Prop} :
    ∀ {l : List α}, (∀ a ∈ l, ∀ b ∈ l, R a b → S a b) → l.Pairwise R →
      l.Pairwise S := by
  intro l
  induction l with
  | nil => intro _ _; exact List.Pairwise.nil
  | cons x xs ih =>
      intro H hp
      rcases List.pairwise_cons.mp hp with ⟨hx, hxs⟩
      refine List.pairwise_cons.mpr ⟨?_, ih ?_ hxs⟩
      · intro b hb
        exact H x (List.mem_cons_self x xs) b (List.mem_cons_of_mem x hb) (hx b hb)
      · intro a ha b hb hr
        exact H a (List.mem_cons_of_mem x ha) b (List.mem_cons_of_mem x hb) hr

theorem batch_dates_eq (ids : List String) (d : Int) (db : Db) (h : String)
    (hmem : h ∈ ids) :
    (((batchSortedRows ids d db).filter (fun r => r.habit_id = h)).map
        (fun r => r.date))
      = completedDatesDesc h d db := by
  have heq : ((db.user_habits.filter (fun r =>
        r.habit_id ∈ ids ∧ r.completed = true ∧ r.date ≤ d)).filter
      (fun r => r.habit_id = h))
      = db.user_habits.filter (fun r =>
        r.habit_id = h ∧ r.completed = true ∧ r.date ≤ d) := by
    rw [List.filter_filter]
    apply List.filter_congr
    intro r _
    by_cases hrh : r.habit_id = h
    · simp [hrh, hmem]
    · simp [hrh]
  have hperm : List.Perm
      (((batchSortedRows ids d db).filter (fun r => r.habit_id = h)).map
        (fun r => r.date))
      (completedDatesDesc h d db) := by
    unfold batchSortedRows completedDatesDesc
    have p1 := List.perm_insertionSort rowLe
      (db.user_habits.filter (fun r =>
        r.habit_id ∈ ids ∧ r.completed = true ∧ r.date ≤ d))
    have p2 := (p1.filter (fun r => decide (r.habit_id = h))).map
      (fun r => r.date)
    have p3 := List.perm_insertionSort (α := Int) (· ≥ ·)
      ((db.user_habits.filter (fun r =>
        r.habit_id = h ∧ r.completed = true ∧ r.date ≤ d)).map (fun r => r.date))
    rw [heq] at p2
    exact p2.trans p3.symm
  have hs1 : List.Sorted (· ≥ ·)
      (((batchSortedRows ids d db).filter (fun r => r.habit_id = h)).map
        (fun r => r.date)) := by
    apply List.pairwise_map.mpr
    have hsorted : List.Sorted rowLe (batchSortedRows ids d db) :=
      List.sorted_insertionSort rowLe _
    have hf : List.Pairwise rowLe
        ((batchSortedRows ids d db).filter (fun r => r.habit_id = h)) :=
      hsorted.filter _
    apply pairwise_imp_of_mem ?_ hf
    intro a ha b hb hr
    have hah : a.habit_id = h := by simpa using (List.mem_filter.mp ha).2
    have hbh : b.habit_id = h := by simpa using (List.mem_filter.mp hb).2
    rcases hr with hlt | ⟨_, hd⟩
    · rw [hah, hbh] at hlt
      exact absurd hlt (lt_irrefl _)
    · exact hd
  have hs2 : List.Sorted (· ≥ ·) (completedDatesDesc h d db) :=
    List.sorted_insertionSort (· ≥ ·) _
  exact List.eq_of_perm_of_sorted hperm hs1 hs2

theorem le_streakWalk (t : Int) :
    ∀ (L : List Int) (s : Nat), s ≤ streakWalk t s L := by
  intro L
  induction L with
  | nil => intro s; exact le_refl s
  | cons x xs ih =>
      intro s
      rw [streakWalk_cons]
      by_cases hx : x = t - (s : Int)
      · rw [if_pos hx]
        exact le_trans (Nat.le_succ s) (ih (s + 1))
      · rw [if_neg hx]

theorem streakWalk_take (t : Int) :
    ∀ (L : List Int) (n s : Nat),
      streakWalk t s (L.take n) = min (streakWalk t s L) (s + n) := by
  intro L
  induction L with
  | nil =>
      intro n s
      rw [List.take_nil]
      show s = min s (s + n)
      omega
  | cons x xs ih =>
      intro n s
      cases n with
      | zero =>
          have hge := le_streakWalk t (x :: xs) s
          simp only [List.take_zero]
          show s = min (streakWalk t s (x :: xs)) (s + 0)
          omega
      | succ n =>
          rw [List.take_succ_cons, streakWalk_cons, streakWalk_cons]
          by_cases hx : x = t - (s : Int)
          · rw [if_pos hx, if_pos hx, ih n (s + 1)]
            omega
          · rw [if_neg hx, if_neg hx]
            have hge := le_streakWalk t xs (s + 1)
            omega

theorem calculateHabitStreak_eq_min (h : String) (d : Int) (db : Db) :
    calculateHabitStreak h d db
      = min (streakWalk d 0 (completedDatesDesc h d db)) 100 := by
  unfold calculateHabitStreak
  rw [streakWalk_take]

theorem lookup_map_pair {β : Type} (f : String → β) :
    ∀ (ids : List String) (h : String), h ∈ ids →
      (ids.map (fun x => (x, f x))).lookup h = some (f h) := by
  intro ids
  induction ids with
  | nil => intro h hh; cases hh
  | cons a tl ih =>
      intro h hh
      by_cases hha : h = a
      · subst hha
        simp [List.lookup]
      · rcases List.mem_cons.mp hh with rfl | hh2
        · exact absurd rfl hha
        · have hba : (h == a) = false := by simp [hha]
          simp only [List.map_cons, List.lookup, hba]
          exact ih h hh2

/-- C3 (amended): the batched streak operation computes, for every requested
  habit id, the uncapped streak over all qualifying completed dates, while
  the single-habit operation walks only the newest 100 completed dates; so
  for every store, id set and target date, the single result equals the
  batch result capped at 100 — and the two agree exactly whenever the batch
  streak is at most 100. -/
theorem c3_batch_equiv (db : Db) (ids : List String) (d : Int) (h : String)
    (hmem : h ∈ ids) (n : Nat)
    (hlook : (getHabitStreaks ids d db).lookup h = some n) :
    calculateHabitStreak h d db = min n 100 := by
  unfold getHabitStreaks at hlook
  rw [if_neg (by rintro rfl; cases hmem)] at hlook
  rw [lookup_map_pair (fun x => streakWalk d 0
      (((batchSortedRows ids d db).filter (fun r => r.habit_id = x)).map
        (fun r => r.date))) ids h hmem] at hlook
  have hn := Option.some.inj hlook
  rw [calculateHabitStreak_eq_min, ← batch_dates_eq ids d db h hmem, hn]

set_option maxRecDepth 100000 in
/-- C3 counterexample: with habit a completed on every day 0 through 100 and
  target date 100, the batched operation reports streak 101 while the
  single-habit operation reports 100 (its query has LIMIT 100, the batch
  query has none), refuting exact batch equivalence. -/
theorem c3_counterexample :
    ((getHabitStreaks ["a"] 100 (runStore "a" 0 100)).lookup "a" = some 101) ∧
    calculateHabitStreak "a" 100 (runStore "a" 0 100) ≠ 101 := by
  constructor
  · decide
  · decide

/-- C3 witness: on a store with completions on days 13, 14, 15 and 17, the
  single-habit streak as of day 17 equals the batch streak 1 capped at
  100. -/
theorem c3_witness :
    calculateHabitStreak "h" 17
        (⟨[], [⟨"h", 13, true⟩, ⟨"h", 14, true⟩, ⟨"h", 15, true⟩,
          ⟨"h", 17, true⟩]⟩ : Db)
      = min 1 100 :=
  c3_batch_equiv
    (⟨[], [⟨"h", 13, true⟩, ⟨"h", 14, true⟩, ⟨"h", 15, true⟩,
      ⟨"h", 17, true⟩]⟩ : Db)
    ["h"] 17 "h" (by decide) 1 (by decide)

/-- C8 (amended): createCustomHabit itself performs no name validation — it
  unconditionally inserts a HabitDefinition tagged with the reserved custom
  category 999 and name Custom and returns the generated id, regardless of
  the name; the empty-name rejection is enforced by its caller handleSave,
  which returns without inserting anything when the trimmed name is empty
  (no ValidationError type is raised), and otherwise inserts the definition
  with the trimmed name and description. -/
theorem c8_create_custom (now : Nat) (rand : String)
    (name description icon : String) (db : Db) :
    (jsTrim name = "" → handleSaveCreate now rand name description icon db = db) ∧
    (jsTrim name ≠ "" → handleSaveCreate now rand name description icon db =
      { db with habits := db.habits ++
          [⟨makeCustomHabitId now rand, jsTrim name, some (jsTrim description),
            some icon, some 999, some "Custom"⟩] }) ∧
    ((createCustomHabit now rand name description icon db).1
        = makeCustomHabitId now rand) ∧
    ((createCustomHabit now rand name description icon db).2.habits
        = db.habits ++ [⟨makeCustomHabitId now rand, name, some description,
            some icon, some 999, some "Custom"⟩]) := by
  refine ⟨?_, ?_, rfl, rfl⟩
  · intro h
    unfold handleSaveCreate
    rw [if_pos h]
  · intro h
    unfold handleSaveCreate
    rw [if_neg h]
    rfl

/-- C8 counterexample: called with the empty name, createCustomHabit does not
  fail — it inserts a HabitDefinition with empty name and category 999 into
  the empty catalog and returns normally, contradicting the claim that no
  HabitDefinition is inserted on such input. -/
theorem c8_counterexample :
    ((createCustomHabit 5 "x" "" "" "" ⟨[], []⟩).2.habits
      = [⟨"custom_5_x", "", some "", some "", some 999, some "Custom"⟩]) ∧
    ((createCustomHabit 5 "x" "" "" "" ⟨[], []⟩).2.habits ≠ []) := by
  constructor
  · decide
  · decide

/-- C8 witness: a whitespace-only name leaves the store unchanged through
  handleSave, and a valid name is inserted trimmed, tagged 999 / Custom. -/
theorem c8_witness :
    (handleSaveCreate 5 "x" "   " "d" "i" dbEx = dbEx) ∧
    (handleSaveCreate 5 "x" " Run " "d" "i" dbEx =
      { dbEx with habits := dbEx.habits ++
          [⟨"custom_5_x", "Run", some "d", some "i", some 999, some "Custom"⟩] }) :=
  ⟨(c8_create_custom 5 "x" "   " "d" "i" dbEx).1 (by decide),
   ((c8_create_custom 5 "x" " Run " "d" "i" dbEx).2.1 (by decide)).trans (by decide)⟩

/-- C4 witness: saving a selection with duplicate tasks and a stray
  completed id on date 10 leaves that date with pairwise distinct habit
  ids. -/
theorem c4_witness :
    (((saveHabitSelection 10 ⟨[], ["a", "b", "a"], ["b", "z"]⟩ false dbC5).user_habits.filter
        (fun r => r.date = 10)).map (fun r => r.habit_id)).Nodup :=
  (c4_write_invariants dbC5 10 ⟨[], ["a", "b", "a"], ["b", "z"]⟩ false).1

/-- C9: deleteCustomHabit removes the HabitDefinition and every DayEntry
  referencing the id, a subsequent loadAllHabitSelections mentions the id in
  no tasks or completed list of any date, and when the id is absent from
  both tables the call leaves the store completely unchanged. -/
theorem c9_cascade_delete (db : Db) (habitId : String) :
    (∀ r ∈ (deleteCustomHabit habitId db).habits, r.id ≠ habitId) ∧
    (∀ r ∈ (deleteCustomHabit habitId db).user_habits, r.habit_id ≠ habitId) ∧
    (∀ dk sel, (dk, sel) ∈ loadAllHabitSelections (deleteCustomHabit habitId db) →
      habitId ∉ sel.tasks ∧ habitId ∉ sel.completed) ∧
    ((∀ r ∈ db.habits, r.id ≠ habitId) →
      (∀ r ∈ db.user_habits, r.habit_id ≠ habitId) →
      deleteCustomHabit habitId db = db) := by
  have h2 : ∀ r ∈ (deleteCustomHabit habitId db).user_habits,
      r.habit_id ≠ habitId := by
    intro r hr
    have := List.mem_filter.mp hr
    simpa using this.2
  have hrows : ∀ r, r ∈ ((deleteCustomHabit habitId db).user_habits.insertionSort
      (fun a b => a.date ≤ b.date)) → r.habit_id ≠ habitId := by
    intro r hr
    exact h2 r ((List.perm_insertionSort _ _).mem_iff.mp hr)
  refine ⟨?_, h2, ?_, ?_⟩
  · intro r hr
    have := List.mem_filter.mp hr
    simpa using this.2
  · intro dk sel hmem
    unfold loadAllHabitSelections at hmem
    rcases List.mem_map.mp hmem with ⟨dk2, _, heq⟩
    rw [Prod.ext_iff] at heq
    obtain ⟨_, hsel⟩ := heq
    subst hsel
    constructor
    · intro hmemT
      rcases List.mem_map.mp hmemT with ⟨r, hr, hre⟩
      exact hrows r (List.mem_of_mem_filter hr) hre
    · intro hmemC
      rcases List.mem_map.mp hmemC with ⟨r, hr, hre⟩
      exact hrows r (List.mem_of_mem_filter (List.mem_of_mem_filter hr)) hre
  · intro hh hu
    obtain ⟨hs, us⟩ := db
    unfold deleteCustomHabit
    have e1 : (hs.filter (fun r => r.id ≠ habitId)) = hs :=
      List.filter_eq_self.mpr (fun r hr => by simpa using hh r hr)
    have e2 : (us.filter (fun r => r.habit_id ≠ habitId)) = us :=
      List.filter_eq_self.mpr (fun r hr => by simpa using hu r hr)
    simp only at e1 e2 ⊢
    rw [e1, e2]

/-- C9 witness: deleting habit A from the small store removes it from every
  selection returned by loadAllHabitSelections, and deleting an id that is
  absent from both tables is a no-op. -/
theorem c9_witness :
    ("A" ∉ (⟨[2], ["B"], []⟩ : HabitSelection).tasks) ∧
    deleteCustomHabit "zzz" dbEx = dbEx :=
  ⟨((c9_cascade_delete dbEx "A").2.2.1 10 ⟨[2], ["B"], []⟩ (by decide)).1,
   (c9_cascade_delete dbEx "zzz").2.2.2 (by decide) (by decide)⟩

/-- C10 (amended): loadHabitSelection raises if and only if the initial
  database acquisition (the getDatabase await, which sits before the try
  block in the source) fails; every failure of a store operation inside the
  body is swallowed — the outer catch returns the empty selection, the
  suggestion helper catches its own query failure and yields no suggestions,
  and a failure while persisting a suggested selection keeps the suggested
  selection with the store unchanged. -/
theorem c10_load_total (f : DbFailure) (d : Int) (db : Db) :
    exceptIsOk (loadHabitSelectionExc f d db) = !f.openFails := by
  unfold loadHabitSelectionExc
  cases hf : f.openFails
  · rfl
  · rfl

/-- C10 counterexample: when opening the database fails, loadHabitSelection
  propagates the error to its caller instead of returning the empty
  selection — the getDatabase await is outside the try block. -/
theorem c10_counterexample :
    loadHabitSelectionExc ⟨true, false, false, false, false⟩ 0 ⟨[], []⟩
      = .error () := rfl

/-- C10 witness: with the connection open and the day query failing, the
  read still succeeds at the interface. -/
theorem c10_witness :
    exceptIsOk (loadHabitSelectionExc ⟨false, true, false, false, false⟩ 0 ⟨[], []⟩)
      = true :=
  (c10_load_total ⟨false, true, false, false, false⟩ 0 ⟨[], []⟩).trans rfl

end HabitDb
